import Mathlib

set_option maxHeartbeats 1000000
set_option maxRecDepth 8000

namespace HBExt

/-!
Shallow embedding of the market-data pipeline of the `hbext` repository: the
async rate-limiter request context (`async_request_context_base.py`), the order
book tracker (`order_book_tracker.py`), and the funding-rate feeds
(`fundingrate_base.py` and the Binance / OKX subclasses).

Python `float` timestamps and `Decimal` monetary quantities are modelled as
`ℚ`; exchange update ids as `ℕ`.  Parts of the program that live outside the
repository snapshot (the `OrderBook` Cython class and the concrete
`within_capacity` of the throttler) are modelled from the spec and marked as
such in their doc comments.
-/

/-! ### Rate limiter data model

`RateLimit` and `TaskLog` mirror `hummingbot/core/api_throttler/data_types.py`
as used by `async_request_context_base.py`; the spec fixes their fields in
section 3 (`RateLimit { id, limit, interval, weight, linked_limits }`,
`TaskLog { timestamp, rate_limit, weight }`).  Linked limits are kept as an
explicit list of `(RateLimit, weight)` pairs, exactly the
`related_limits` argument of `AsyncRequestContextBase.__init__`. -/

structure RateLimit where
  limitId : ℕ
  limit : ℕ
  timeInterval : ℚ
  weight : ℕ
  deriving DecidableEq, Repr

structure TaskLog where
  timestamp : ℚ
  rateLimit : RateLimit
  weight : ℕ
  deriving DecidableEq, Repr

/-- A task-log entry has passed its own limit's rate-limit period
(`async_request_context_base.py` line 64: the entry is removed when
`elapsed > task_limit.time_interval * (1 + safety_margin_pct)`). -/
def isExpired (safetyMarginPct now : ℚ) (t : TaskLog) : Bool :=
  now - t.timestamp > t.rateLimit.timeInterval * (1 + safetyMarginPct)

/-- One pass of `AsyncRequestContextBase.flush` (lines 54-65), keeping Python's
`for task in self._task_logs: ... self._task_logs.remove(task)` semantics: the
loop walks an index over the list, and removing the current element shifts the
remainder left so that the element after a removed one is skipped.  `fuel`
bounds the number of iterations; the loop performs at most `l.length`
iterations because the index grows by one per iteration and the list never
grows, so starting the recursion with `fuel = l.length` (see `pyFlush`) is
exact. -/
def flushAux (margin now : ℚ) : ℕ → List TaskLog → ℕ → List TaskLog
  | 0, l, _ => l
  | fuel + 1, l, i =>
    if h : i < l.length then
      let t := l.get ⟨i, h⟩
      if isExpired margin now t then
        flushAux margin now fuel (l.erase t) (i + 1)
      else
        flushAux margin now fuel l (i + 1)
    else l

/-- `AsyncRequestContextBase.flush` on a task-log list. -/
def pyFlush (margin now : ℚ) (l : List TaskLog) : List TaskLog :=
  flushAux margin now l.length l 0

/-- Context of one `AsyncRequestContextBase`: its named rate limit and its
related (linked) limits with their weights. -/
structure AcquireCtx where
  rateLimit : RateLimit
  relatedLimits : List (RateLimit × ℕ)
  deriving DecidableEq, Repr

/-- Summed weight of the task-log entries that count against limit `rl` at
time `now`: same limit id and age at most the limit's interval. -/
def capacityUsed (logs : List TaskLog) (now : ℚ) (rl : RateLimit) : ℕ :=
  (logs.filter
    (fun t => t.rateLimit.limitId == rl.limitId
      && decide (now - t.timestamp ≤ rl.timeInterval))).foldl
    (fun a t => a + t.weight) 0

/-- Modelled from the spec: `within_capacity` is abstract in
`AsyncRequestContextBase` and its concrete override (the throttler's
`AsyncRequestContext`) is not part of the repository snapshot.  Spec section
4.A step 2: for the named limit and every linked limit, the summed weight of
task-log entries with that limit id and age at most the limit's interval, plus
the new weight, must not exceed the limit. -/
def withinCapacity (ctx : AcquireCtx) (logs : List TaskLog) (now : ℚ) : Bool :=
  ((ctx.rateLimit, ctx.rateLimit.weight) :: ctx.relatedLimits).all
    (fun lw => capacityUsed logs now lw.1 + lw.2 ≤ lw.1.limit)

/-- Task-log entries appended by a successful `acquire` at time `t`
(`async_request_context_base.py` lines 85-91): one entry for the named limit
at its own weight and one entry per related limit at the linked weight. -/
def appendEntries (ctx : AcquireCtx) (t : ℚ) : List TaskLog :=
  TaskLog.mk t ctx.rateLimit ctx.rateLimit.weight
    :: ctx.relatedLimits.map (fun lw => TaskLog.mk t lw.1 lw.2)

/-- Where a caller stands inside `acquire`: still in the check loop, past a
successful `within_capacity` check (it has released the lock and not yet
re-acquired it for the append), or finished. -/
inductive AcqPhase where
  | checking
  | passed
  | done
  deriving DecidableEq, Repr

/-- Atomic critical sections of `acquire` as written in the source: the check
section (lines 74-78: lock, `flush`, `within_capacity`, unlock) and the append
section (lines 80-91: lock, append entries, unlock).  The two sections are
guarded by separate `async with self._lock` blocks, so other tasks may run in
between. -/
inductive AcqAction where
  | check (i : ℕ) (t : ℚ)
  | append (i : ℕ) (t : ℚ)
  deriving DecidableEq, Repr

/-- Shared state of a set of concurrent callers of `acquire`: one shared task
log and lock, each caller's context and phase, and the current time. -/
structure ThrottlerWorld where
  callers : List AcquireCtx
  phases : List AcqPhase
  logs : List TaskLog
  clock : ℚ
  deriving DecidableEq, Repr

/-- Execute one atomic critical section.  `none` means the action is not
enabled (wrong phase, unknown caller, or time running backwards). -/
def execStep (margin : ℚ) (w : ThrottlerWorld) : AcqAction → Option ThrottlerWorld
  | .check i t =>
    match w.callers.get? i, w.phases.get? i with
    | some ctx, some .checking =>
      if w.clock ≤ t then
        let flushed := pyFlush margin t w.logs
        if withinCapacity ctx flushed t then
          some { w with logs := flushed, phases := w.phases.set i .passed, clock := t }
        else
          some { w with logs := flushed, clock := t }
      else none
    | _, _ => none
  | .append i t =>
    match w.callers.get? i, w.phases.get? i with
    | some ctx, some .passed =>
      if w.clock ≤ t then
        some { w with logs := w.logs ++ appendEntries ctx t,
                      phases := w.phases.set i .done, clock := t }
      else none
    | _, _ => none

/-- Execute a whole interleaving of critical sections. -/
def execTrace (margin : ℚ) (w : ThrottlerWorld) : List AcqAction → Option ThrottlerWorld
  | [] => some w
  | a :: rest => match execStep margin w a with
    | some w2 => execTrace margin w2 rest
    | none => none

/-- All task-log entries appended over a trace (admissions are exactly the
`append` sections; `flush` may later delete entries from the shared log, but
an admission happened regardless). -/
def traceEntries (callers : List AcquireCtx) : List AcqAction → List TaskLog
  | [] => []
  | .check _ _ :: rest => traceEntries callers rest
  | .append i t :: rest =>
    (match callers.get? i with
     | some ctx => appendEntries ctx t
     | none => []) ++ traceEntries callers rest

/-- Total admitted weight for limit id `lid` with timestamps inside the
rolling window `[lo, hi]`. -/
def windowWeight (entries : List TaskLog) (lid : ℕ) (lo hi : ℚ) : ℕ :=
  (entries.filter
    (fun e => e.rateLimit.limitId == lid
      && decide (lo ≤ e.timestamp) && decide (e.timestamp ≤ hi))).foldl
    (fun a e => a + e.weight) 0

/-- Concrete limit for the C1 failing input: id 0, limit 1, interval 1 s,
weight 1, no linked limits. -/
def c1Limit : RateLimit := ⟨0, 1, 1, 1⟩

def c1Ctx : AcquireCtx := ⟨c1Limit, []⟩

/-- Two concurrent callers of the same limit over an empty task log. -/
def c1World : ThrottlerWorld :=
  ⟨[c1Ctx, c1Ctx], [.checking, .checking], [], 0⟩

/-- The racing interleaving: both callers pass their check critical section
before either runs its append critical section. -/
def c1Trace : List AcqAction :=
  [.check 0 0, .check 1 0, .append 0 0, .append 1 0]

/-- Concrete inputs for the C4 failing input: a limit with interval 1 s, no
safety margin, and two identical expired entries (timestamp 0, checked at
time 10). -/
def c4Limit : RateLimit := ⟨0, 1, 1, 1⟩

def c4Entry : TaskLog := ⟨0, c4Limit, 1⟩

/-! ### Order-book messages and the per-symbol worker

`OrderBookMessage` is reduced to the fields the tracker inspects: trading
pair, message type and `update_id`.  Price levels do not influence routing,
buffering or the update-id discipline, so they are not carried. -/

inductive OBMsgType where
  | diff
  | snapshot
  | trade
  deriving DecidableEq, Repr

structure OBMsg where
  pair : String
  mtype : OBMsgType
  updateId : ℕ
  deriving DecidableEq, Repr

/-- Append on a Python `deque(maxlen=cap)`: the new element goes to the back
and the front is dropped once the capacity is exceeded. -/
def pushRing (cap : ℕ) (r : List α) (x : α) : List α :=
  let r2 := r ++ [x]
  r2.drop (r2.length - cap)

/-- Modelled from the spec: `OrderBook.apply_diffs` (the `OrderBook` Cython
class is not part of the repository snapshot).  Spec section 4.D: it requires
`update_id > last_diff_uid` and then updates `last_diff_uid`; a diff with
`update_id ≤ last_diff_uid` is dropped silently.  Only the resulting
`last_diff_uid` is tracked here. -/
def applyDiffUid (lastDiffUid updateId : ℕ) : ℕ :=
  if lastDiffUid < updateId then updateId else lastDiffUid

def insertAsc (x : ℕ) : List ℕ → List ℕ
  | [] => [x]
  | y :: ys => if x ≤ y then x :: y :: ys else y :: insertAsc x ys

/-- Ascending sort (insertion sort), used to model the spec's "in ascending id
order" replay. -/
def sortAsc (l : List ℕ) : List ℕ := l.foldr insertAsc []

/-- Modelled from the spec: `OrderBook.restore_from_snapshot_and_diffs` (not
part of the repository snapshot).  Spec section 4.D: replace the book, set
`snapshot_uid = last_diff_uid = snapshot.update_id`, then re-apply each past
diff whose `update_id > snapshot.update_id` in ascending id order.  The
resulting `last_diff_uid` is the fold of `apply_diffs` over those ids. -/
def restoreUid (snapUid : ℕ) (pastDiffs : List ℕ) : ℕ :=
  (sortAsc (pastDiffs.filter (fun i => snapUid < i))).foldl applyDiffUid snapUid

/-- Book state seen by one `_track_single_book` worker: the book's
`snapshot_uid` and `last_diff_uid`, the pair's `past_diffs_window` ring of
diff update ids (capacity `PAST_DIFF_WINDOW_SIZE = 32`, oldest first), and a
ghost log of the update ids of the diffs the worker successfully applied via
its direct `apply_diffs` calls (`order_book_tracker.py` line 337). -/
structure BookTrack where
  snapshotUid : ℕ
  lastDiffUid : ℕ
  pastDiffs : List ℕ
  appliedLog : List ℕ
  deriving DecidableEq, Repr

/-- One iteration body of `_track_single_book` (lines 336-350) applied to one
message.  A DIFF is passed to `apply_diffs` and then appended to the
`past_diffs_window` ring whether or not the book accepted it (the append at
line 338 is unconditional).  A SNAPSHOT calls
`restore_from_snapshot_and_diffs` with a copy of the ring.  Other message
types are ignored by the worker. -/
def trackStep (s : BookTrack) (m : OBMsg) : BookTrack :=
  match m.mtype with
  | .diff =>
    let s2 :=
      if s.lastDiffUid < m.updateId then
        { s with lastDiffUid := m.updateId, appliedLog := s.appliedLog ++ [m.updateId] }
      else s
    { s2 with pastDiffs := pushRing 32 s.pastDiffs m.updateId }
  | .snapshot =>
    { s with snapshotUid := m.updateId, lastDiffUid := restoreUid m.updateId s.pastDiffs }
  | .trade => s

/-- A worker run over a sequence of incoming messages. -/
def runTrack (s : BookTrack) (msgs : List OBMsg) : BookTrack :=
  msgs.foldl trackStep s

/-- No snapshot restoration along the run lowers `last_diff_uid` below an
already-applied diff id: at each SNAPSHOT message, every previously applied id
is at most the `last_diff_uid` produced by the restore.  This is the side
condition of the amended C2. -/
def noRegress (s : BookTrack) : List OBMsg → Bool
  | [] => true
  | m :: rest =>
    (if m.mtype = OBMsgType.snapshot then
       s.appliedLog.all (fun a => a ≤ restoreUid m.updateId s.pastDiffs)
     else true)
    && noRegress (trackStep s m) rest

/-- A freshly initialized book (`get_new_order_book` builds it from a REST
snapshot): `snapshot_uid = last_diff_uid = uid`, empty ring, nothing applied
yet. -/
def freshBook (uid : ℕ) : BookTrack := ⟨uid, uid, [], []⟩

/-- C2 counterexample message sequence for a book initialized at uid 10:
diffs 20 and 21 are applied; 32 re-sent copies of diff 20 (each passes the
diff router because `snapshot_uid = 10 ≤ 20`, each is dropped by `apply_diffs`
but still appended to the ring) push 21 out of the 32-slot ring; a snapshot
with uid 15 (newer than the book's `snapshot_uid`, accepted by the snapshot
router) restores `last_diff_uid` to 20; a re-sent diff 21 is then applied a
second time. -/
def c2Msgs : List OBMsg :=
  [OBMsg.mk "BTC-USDT" .diff 20, OBMsg.mk "BTC-USDT" .diff 21]
    ++ List.replicate 32 (OBMsg.mk "BTC-USDT" .diff 20)
    ++ [OBMsg.mk "BTC-USDT" .snapshot 15, OBMsg.mk "BTC-USDT" .diff 21]

/-- Witness inputs for the amended C2: the spec's S1 scenario shape — diff 12,
a late snapshot 11, then diff 13. -/
def c2WitnessMsgs : List OBMsg :=
  [OBMsg.mk "BTC-USDT" .diff 12, OBMsg.mk "BTC-USDT" .snapshot 11,
   OBMsg.mk "BTC-USDT" .diff 13]

/-- The message-selection loop of `_track_single_book` (lines 326-333): each
iteration takes the oldest saved message if `saved_message_queues[pair]` is
non-empty and only otherwise takes from `tracking_message_queues[pair]`;
`n` iterations produce the processed messages in order.  After the pair is
initialized the diff router never appends to the saved queue again (it routes
to the tracking queue as soon as the pair is in `_tracking_message_queues`),
so the two queues' contents are fixed inputs here. -/
def workerSched (α : Type) : ℕ → List α → List α → List α
  | 0, _, _ => []
  | n + 1, saved, inbox =>
    match saved with
    | m :: rest => m :: workerSched α n rest inbox
    | [] =>
      match inbox with
      | m :: rest => m :: workerSched α n [] rest
      | [] => []

/-! ### Order-book tracker state

`OrderBookTracker`'s mutable state (`order_book_tracker.py` lines 44-83),
projected to what its own operations read and write: `_order_books` keeps each
book's `snapshot_uid` (the only book attribute the router reads),
`_tracking_message_queues` and `_saved_message_queues` keep their message
lists (head = oldest), `_tracking_tasks` its keys, plus the
`_order_books_initialized` event and the diff router's counters.  Python
dicts are modelled as association lists. -/

/-- Dict assignment `d[k] = v`: replace in place, or append a new binding. -/
def setA (k : String) (v : α) : List (String × α) → List (String × α)
  | [] => [(k, v)]
  | (k2, v2) :: rest => if k2 = k then (k, v) :: rest else (k2, v2) :: setA k v rest

structure TrackerState where
  orderBooks : List (String × ℕ)
  trackingQueues : List (String × List OBMsg)
  trackingTasks : List String
  savedQueues : List (String × List OBMsg)
  initialized : Bool
  queuedCount : ℕ
  acceptedCount : ℕ
  rejectedCount : ℕ
  deriving DecidableEq, Repr

/-- `OrderBookTracker.ready` (lines 93-95): whether the
`_order_books_initialized` event is set. -/
def trackerReady (s : TrackerState) : Bool := s.initialized

/-- One iteration of `_order_book_diff_router` (lines 250-272) on one popped
message.  The pair-membership test is on `_tracking_message_queues`; an
untracked pair's message goes to the 1000-capacity saved ring (a
`defaultdict`, so a missing queue starts empty) and counts as queued; for a
tracked pair the book is fetched from `_order_books` (`none` models the
`KeyError` this lookup would raise if the book were missing) and the message
is dropped as rejected when `snapshot_uid > update_id`, otherwise appended to
the pair's tracking queue and counted as accepted. -/
def diffRouterStep (s : TrackerState) (m : OBMsg) : Option TrackerState :=
  match (s.trackingQueues).lookup m.pair with
  | none =>
    some { s with
      queuedCount := s.queuedCount + 1,
      savedQueues :=
        setA m.pair (pushRing 1000 ((s.savedQueues.lookup m.pair).getD []) m)
          s.savedQueues }
  | some q =>
    match s.orderBooks.lookup m.pair with
    | none => none
    | some snapUid =>
      if m.updateId < snapUid then
        some { s with rejectedCount := s.rejectedCount + 1 }
      else
        some { s with
          acceptedCount := s.acceptedCount + 1,
          trackingQueues := setA m.pair (q ++ [m]) s.trackingQueues }

/-- One iteration of `_order_book_snapshot_router` (lines 304-309): a message
for a tracked pair is appended to its tracking queue, others are dropped. -/
def snapshotRouterStep (s : TrackerState) (m : OBMsg) : TrackerState :=
  match s.trackingQueues.lookup m.pair with
  | some q => { s with trackingQueues := setA m.pair (q ++ [m]) s.trackingQueues }
  | none => s

/-- Effect of a worker processing one message on the tracked book projection:
only a snapshot changes the book's `snapshot_uid` (via
`restore_from_snapshot_and_diffs`); diffs and trades leave it unchanged. -/
def workerApply (s : TrackerState) (m : OBMsg) : TrackerState :=
  match m.mtype with
  | .snapshot =>
    match s.orderBooks.lookup m.pair with
    | some _ => { s with orderBooks := setA m.pair m.updateId s.orderBooks }
    | none => s
  | _ => s

/-- One iteration of `_track_single_book` for pair `p` at the tracker level:
pop the oldest saved message if any, else the oldest tracking-queue message,
and process it. -/
def workerPopStep (s : TrackerState) (p : String) : TrackerState :=
  match (s.savedQueues.lookup p).getD [] with
  | m :: rest =>
    workerApply { s with savedQueues := setA p rest s.savedQueues } m
  | [] =>
    match (s.trackingQueues.lookup p).getD [] with
    | m :: rest =>
      workerApply { s with trackingQueues := setA p rest s.trackingQueues } m
    | [] => s

/-- One loop body of `_init_order_books` (lines 227-233) for one pair: the
book produced by `get_new_order_book` is stored, then the pair's tracking
queue is created, then its worker task is spawned — with no suspension point
between the three assignments. -/
def initPairStep (s : TrackerState) (p : String) (uid : ℕ) : TrackerState :=
  { s with
    orderBooks := setA p uid s.orderBooks,
    trackingQueues := setA p [] s.trackingQueues,
    trackingTasks := s.trackingTasks ++ [p] }

/-- The final statement of `_init_order_books` (line 234):
`_order_books_initialized.set()`. -/
def setInitializedStep (s : TrackerState) : TrackerState :=
  { s with initialized := true }

/-- `OrderBookTracker.stop` (lines 148-180): cancel and drop all tasks and
clear the `_order_books_initialized` event; books and queues are kept. -/
def stopStep (s : TrackerState) : TrackerState :=
  { s with trackingTasks := [], initialized := false }

/-- State created by `OrderBookTracker.__init__`: everything empty, event
clear. -/
def initialTrackerState : TrackerState := ⟨[], [], [], [], false, 0, 0, 0⟩

/-- The tracker's own state-mutating operations, each taken at its atomic
(between-await) granularity. -/
inductive TrackerStep : TrackerState → TrackerState → Prop where
  | initPair (s : TrackerState) (p : String) (uid : ℕ) :
      TrackerStep s (initPairStep s p uid)
  | setInit (s : TrackerState) : TrackerStep s (setInitializedStep s)
  | stop (s : TrackerState) : TrackerStep s (stopStep s)
  | routeDiff (s : TrackerState) (m : OBMsg) (s2 : TrackerState)
      (h : diffRouterStep s m = some s2) : TrackerStep s s2
  | routeSnapshot (s : TrackerState) (m : OBMsg) :
      TrackerStep s (snapshotRouterStep s m)
  | workerPop (s : TrackerState) (p : String) :
      TrackerStep s (workerPopStep s p)

/-- States reachable from a fresh tracker by its own operations. -/
def TrackerReach (s : TrackerState) : Prop :=
  Relation.ReflTransGen TrackerStep initialTrackerState s

/-- Key invariant behind C10: every key of `_tracking_message_queues` is a key
of `_order_books`. -/
def trackerInv (s : TrackerState) : Prop :=
  ∀ p, (s.trackingQueues.lookup p).isSome → (s.orderBooks.lookup p).isSome

/-- The sequence of tracker states produced by one run of
`_init_order_books`: the state before each pair's initialization, then the
state after the last pair, then the state after the event is set.  `uidOf`
gives the snapshot uid of the REST-built book of each pair. -/
def initStates (uidOf : String → ℕ) (s0 : TrackerState) (pairs : List String) :
    List TrackerState :=
  pairs.scanl (fun s p => initPairStep s p (uidOf p)) s0
    ++ [setInitializedStep (pairs.foldl (fun s p => initPairStep s p (uidOf p)) s0)]

/-- Number of `false → true` transitions in a boolean history. -/
def countFlips : List Bool → ℕ
  | [] => 0
  | [_] => 0
  | a :: b :: rest => (if !a && b then 1 else 0) + countFlips (b :: rest)

/-- Concrete tracked state for the C3 and C10 witnesses: pair "A" initialized
with book uid 50, one pre-existing saved message for pair "B". -/
def c3State : TrackerState :=
  { orderBooks := [("A", 50)],
    trackingQueues := [("A", [])],
    trackingTasks := ["A"],
    savedQueues := [("B", [OBMsg.mk "B" .diff 7])],
    initialized := true,
    queuedCount := 0, acceptedCount := 0, rejectedCount := 0 }

/-- Diff message for the untracked pair "B", used by the C3 witness. -/
def c3MsgB : OBMsg := OBMsg.mk "B" .diff 9

/-! ### The REST last-trade-price fallback loop

`_update_last_trade_prices_loop` (`order_book_tracker.py` lines 185-212),
after initialization: each iteration computes the pairs whose book has
`last_applied_trade` older than `60. * 3` seconds and
`last_trade_price_rest_updated` older than 5 seconds of monotonic time; if
the set is non-empty it calls `get_last_traded_prices` on exactly that set
and stores each returned price, stamping `last_trade_price_rest_updated` with
the current monotonic time; otherwise it sleeps one second.  The books are
projected to the three fields the loop touches; the REST call itself is an
oracle and is taken as zero model time. -/

structure TradeBook where
  lastAppliedTrade : ℚ
  lastTradePriceRestUpdated : ℚ
  lastTradePrice : ℚ
  deriving DecidableEq, Repr

structure PriceLoopState where
  books : List (String × TradeBook)
  clock : ℚ
  deriving DecidableEq, Repr

/-- The `outdateds` list comprehension (lines 195-197). -/
def outdatedPairs (s : PriceLoopState) : List String :=
  (s.books.filter (fun pb =>
    decide (pb.2.lastAppliedTrade < s.clock - 60 * 3)
      && decide (pb.2.lastTradePriceRestUpdated < s.clock - 5))).map Prod.fst

/-- Store one returned price (lines 203-205): `last_trade_price` is assigned
and `last_trade_price_rest_updated` is stamped with `time.perf_counter()`; a
pair the source returned without a book would raise and is left unchanged. -/
def assignPrice (now : ℚ) (bs : List (String × TradeBook)) (p : String) (price : ℚ) :
    List (String × TradeBook) :=
  match bs.lookup p with
  | none => bs
  | some b =>
    setA p { b with lastTradePrice := price, lastTradePriceRestUpdated := now } bs

/-- One loop iteration (lines 195-207): returns the successor state and the
list of pairs passed to `get_last_traded_prices`, if the call was made. -/
def priceLoopStep (oracle : List String → List (String × ℚ)) (s : PriceLoopState) :
    PriceLoopState × Option (List String) :=
  let od := outdatedPairs s
  if od.isEmpty then
    ({ s with clock := s.clock + 1 }, none)
  else
    ({ s with books :=
        ((oracle od).foldl (fun bs2 pr => assignPrice s.clock bs2 pr.1 pr.2) s.books) },
      some od)

/-- Concrete inputs for the C8 witness: the spec's S4 scenario — a pair whose
last applied trade is 200 s old and whose last REST refresh is 10 s old. -/
def c8Book : TradeBook := ⟨800, 990, 7⟩

def c8State : PriceLoopState := ⟨[("A", c8Book)], 1000⟩

def c8Oracle : List String → List (String × ℚ) := fun _ => [("A", 42)]

/-! ### Funding-rate feeds

`fundingrate_base.py` and the Binance / OKX parsers.  Python `Decimal` values
and the float divisions fed into `Decimal(...)` are modelled as exact
rationals; exchange timestamps (milliseconds) are rationals as well. -/

structure BinanceFrRow where
  symbol : String
  lastFundingRate : ℚ
  deriving DecidableEq, Repr

/-- Value stored per row by
`BinancePerpetualFundingRates._parse_rest_fundingrates` (lines 128-137): a
symbol with a known funding interval gets
`lastFundingRate * (std_hours / interval_hours)`; a symbol missing from
`_funding_interval_hours` keeps the raw rate. -/
def binanceVal (stdHours : ℚ) (intervalHours : List (String × ℕ))
    (row : BinanceFrRow) : ℚ :=
  match intervalHours.lookup row.symbol with
  | some ih => row.lastFundingRate * (stdHours / ih)
  | none => row.lastFundingRate

/-- `BinancePerpetualFundingRates._parse_rest_fundingrates`: the `fr` dict
built row by row. -/
def binanceParseRestFundingrates (stdHours : ℚ) (intervalHours : List (String × ℕ))
    (data : List BinanceFrRow) : List (String × ℚ) :=
  data.foldl (fun fr row =>
    match intervalHours.lookup row.symbol with
    | some ih => setA row.symbol (row.lastFundingRate * (stdHours / ih)) fr
    | none => setA row.symbol row.lastFundingRate fr) []

structure OkxFrRow where
  instId : String
  fundingRate : ℚ
  fundingTime : ℚ
  nextFundingTime : ℚ
  deriving DecidableEq, Repr

/-- `int(float(x) * 1e-3)` on a millisecond timestamp: scale to seconds and
truncate (timestamps are non-negative, so truncation is the floor). -/
def msToSec (x : ℚ) : ℤ := ⌊x / 1000⌋

/-- Value stored per row by
`OkxPerpetualFundingRates._parse_rest_fundingrates` (lines 74-81):
`fundingRate * (std_hours·3600 / (nextFundingTime - fundingTime in seconds))`. -/
def okxVal (stdHours : ℚ) (row : OkxFrRow) : ℚ :=
  row.fundingRate * (stdHours * 60 * 60 /
    ((msToSec row.nextFundingTime - msToSec row.fundingTime : ℤ) : ℚ))

/-- `OkxPerpetualFundingRates._parse_rest_fundingrates`: the dict
comprehension over `data["data"]`. -/
def okxParseRestFundingrates (stdHours : ℚ) (data : List OkxFrRow) :
    List (String × ℚ) :=
  data.foldl (fun fr row => setA row.instId (okxVal stdHours row) fr) []

/-- `FundingRateBase._update_all_funding_info` (lines 271-276): for each
configured trading pair whose exchange symbol appears in the parsed updates,
store the parsed rate under the pair (the `last_update_time` refresh is not
modelled). -/
def updateAllFundingInfo (exOf : String → Option String) (tradingPairs : List String)
    (rates updates : List (String × ℚ)) : List (String × ℚ) :=
  tradingPairs.foldl (fun acc tp =>
    match exOf tp with
    | some ex =>
      match updates.lookup ex with
      | some v => setA tp v acc
      | none => acc
    | none => acc) rates

/-- State of a `FundingRateBase` feed: the configured pairs, the
`_funding_rates` dict and whether a websocket connection is up. -/
structure FeedState where
  tradingPairs : List String
  fundingRates : List (String × ℚ)
  wsConnected : Bool
  deriving DecidableEq, Repr

/-- `FundingRateBase.ready` (lines 73-78):
`len(self._trading_pairs) <= len(self._funding_rates.values())`. -/
def feedReady (s : FeedState) : Bool :=
  s.tradingPairs.length ≤ s.fundingRates.length

/-- `FundingRateBase._on_interruption` (lines 289-291): disconnect the
websocket when one was created, then clear the whole `_funding_rates` dict. -/
def onInterruption (wsPresent : Bool) (s : FeedState) : FeedState :=
  { s with fundingRates := [],
           wsConnected := if wsPresent then false else s.wsConnected }

/-- The ways the `try` body of `listen_for_subscriptions` can be left. -/
inductive WsExit where
  | connectionClosed
  | otherError
  | cancelled
  deriving DecidableEq, Repr

inductive LoopOutcome where
  | loopAgain
  | propagateCancel
  deriving DecidableEq, Repr

/-- End of one pass of `listen_for_subscriptions`' try/except/finally (lines
188-208): a `ConnectionError` is logged and the loop retries; any other
exception is logged, the loop sleeps a second and retries; a
`CancelledError` is re-raised.  In every case the `finally` clause runs
`_on_interruption` before control leaves the iteration. -/
def listenIterationEnd (reason : WsExit) (wsPresent : Bool) (s : FeedState) :
    FeedState × LoopOutcome :=
  (onInterruption wsPresent s,
    match reason with
    | .cancelled => LoopOutcome.propagateCancel
    | _ => LoopOutcome.loopAgain)

/-- Concrete feed state for the C9 witness. -/
def c9State : FeedState :=
  ⟨["BTC-USDT"], [("BTC-USDT", 3 / 10000)], true⟩

/-! ### Theorems -/

/-- C1: the claim says that concurrent callers sharing one task log and lock
are admitted at most `limit` weighted acquisitions of a limit id per rolling
interval window.  The code violates it: `acquire` runs the capacity check and
the task-log append in two separate `async with self._lock` sections, so two
callers can both pass the check on the same free slot before either appends.
This trace is valid (every critical section is enabled in order) and admits
total weight 2 for limit id 0 inside the window `[0, 1]` although the limit
is 1. -/
theorem C1_race_overadmits :
    (execTrace 0 c1World c1Trace).isSome = true ∧
    windowWeight (traceEntries [c1Ctx, c1Ctx] c1Trace) 0 0 1 = 2 ∧
    c1Limit.limit = 1 := by decide

/-- C4: the claim says a single `flush` removes every expired entry.  The code
removes list elements while iterating over the same list, so the element that
follows a removed entry is never examined: with two adjacent expired entries
(both aged 10 against an allowed period of 1), one expired entry survives the
call. -/
theorem C4_flush_keeps_expired_entry :
    pyFlush 0 10 [c4Entry, c4Entry] = [c4Entry] ∧ isExpired 0 10 c4Entry = true := by
  constructor
  · simp [pyFlush, flushAux, c4Entry, c4Limit, isExpired, List.erase]
  · simp [isExpired, c4Entry, c4Limit]

theorem le_foldl_applyDiffUid (l : List ℕ) (u : ℕ) :
    u ≤ List.foldl applyDiffUid u l := by
  induction l generalizing u with
  | nil => simp
  | cons a l ih =>
    rw [List.foldl_cons]
    refine le_trans ?_ (ih (applyDiffUid u a))
    unfold applyDiffUid
    split <;> omega

theorem chain_lt_append_singleton {l : List ℕ} {x : ℕ}
    (hc : List.Chain' (· < ·) l) (hall : ∀ a ∈ l, a < x) :
    List.Chain' (· < ·) (l ++ [x]) := by
  rw [List.chain'_append]
  refine ⟨hc, List.chain'_singleton x, ?_⟩
  intro y hy z hz
  simp only [List.head?_cons, Option.mem_def, Option.some.injEq] at hz
  subst hz
  exact hall y (List.mem_of_mem_getLast? hy)

/-- Auxiliary invariant for C2: along any worker run satisfying `noRegress`,
the applied log stays strictly increasing and bounded by `last_diff_uid`. -/
theorem runTrack_chain_aux (msgs : List OBMsg) : ∀ s : BookTrack,
    List.Chain' (· < ·) s.appliedLog →
    (∀ a ∈ s.appliedLog, a ≤ s.lastDiffUid) →
    noRegress s msgs = true →
    List.Chain' (· < ·) (runTrack s msgs).appliedLog ∧
    ∀ a ∈ (runTrack s msgs).appliedLog, a ≤ (runTrack s msgs).lastDiffUid := by
  induction msgs with
  | nil => exact fun s hc hb _ => ⟨hc, hb⟩
  | cons m rest ih =>
    intro s hc hb hnr
    rw [noRegress, Bool.and_eq_true] at hnr
    obtain ⟨hnr1, hnr2⟩ := hnr
    have hstep : List.Chain' (· < ·) (trackStep s m).appliedLog ∧
        ∀ a ∈ (trackStep s m).appliedLog, a ≤ (trackStep s m).lastDiffUid := by
      unfold trackStep
      match hm : m.mtype with
      | .diff =>
        simp only
        by_cases happ : s.lastDiffUid < m.updateId
        · simp only [if_pos happ]
          constructor
          · exact chain_lt_append_singleton hc
              (fun a ha => lt_of_le_of_lt (hb a ha) happ)
          · intro a ha
            rcases List.mem_append.mp ha with h | h
            · exact le_of_lt (lt_of_le_of_lt (hb a h) happ)
            · simp only [List.mem_singleton] at h; omega
        · simp only [if_neg happ]
          exact ⟨hc, hb⟩
      | .snapshot =>
        simp only
        rw [hm] at hnr1
        simp [List.all_eq_true] at hnr1
        exact ⟨hc, hnr1⟩
      | .trade => exact ⟨hc, hb⟩
    have : runTrack s (m :: rest) = runTrack (trackStep s m) rest := by
      simp [runTrack]
    rw [this]
    exact ih (trackStep s m) hstep.1 hstep.2 hnr2

/-- C2 (counterexample): with a book initialized at `snapshot_uid = 10`, the
message sequence `c2Msgs` — every element of which passes the diff router's
`snapshot_uid > update_id` test resp. the snapshot router — makes
`_track_single_book` successfully apply update id 21 twice: re-sent stale
diffs (dropped by `apply_diffs` but still appended to the past-diffs ring at
line 338) push 21 out of the 32-slot ring, and the snapshot restore then
lowers `last_diff_uid` back to 20.  The applied-id sequence is not strictly
increasing. -/
theorem C2_counterexample :
    ¬ List.Chain' (· < ·) (runTrack (freshBook 10) c2Msgs).appliedLog := by
  have h : (runTrack (freshBook 10) c2Msgs).appliedLog = [20, 21, 21] := by rfl
  rw [h]
  simp [List.chain'_cons]

/-- C2 (amended): the sequence of update ids successfully passed to
`apply_diffs` by `_track_single_book` is strictly increasing provided no
snapshot restoration lowers `last_diff_uid` below an already-applied diff id
(`noRegress`), i.e. provided every processed snapshot either carries at least
the largest applied id or arrives while that id is still in the past-diffs
ring. -/
theorem C2_applied_uids_strictly_increasing (uid0 : ℕ) (msgs : List OBMsg)
    (h : noRegress (freshBook uid0) msgs = true) :
    List.Chain' (· < ·) (runTrack (freshBook uid0) msgs).appliedLog :=
  (runTrack_chain_aux msgs (freshBook uid0) (by simp [freshBook])
    (by simp [freshBook]) h).1

theorem C2_applied_uids_strictly_increasing_witness :
    noRegress (freshBook 10) c2WitnessMsgs = true ∧
    List.Chain' (· < ·) (runTrack (freshBook 10) c2WitnessMsgs).appliedLog :=
  ⟨by decide, C2_applied_uids_strictly_increasing 10 c2WitnessMsgs (by decide)⟩

theorem lookup_setA (k p : String) (v : α) (l : List (String × α)) :
    (setA p v l).lookup k = if k = p then some v else l.lookup k := by
  induction l with
  | nil =>
    simp only [setA, List.lookup]
    by_cases h : k = p
    · simp [h]
    · simp [h, beq_false_of_ne h]
  | cons hd t ih =>
    obtain ⟨k2, v2⟩ := hd
    by_cases h2 : k2 = p
    · subst h2
      simp only [setA, if_pos rfl, List.lookup]
      by_cases h : k = k2
      · simp [h]
      · simp [beq_false_of_ne h, h]
    · simp only [setA, if_neg h2, List.lookup]
      by_cases h : k = k2
      · subst h
        simp [h2]
      · simp [beq_false_of_ne h, ih]

theorem pushRing_eq {α : Type} (cap : ℕ) (hcap : 0 < cap) (r : List α) (x : α)
    (hr : r.length ≤ cap) :
    pushRing cap r x = if r.length < cap then r ++ [x] else r.drop 1 ++ [x] := by
  unfold pushRing
  by_cases h : r.length < cap
  · simp only [if_pos h, List.length_append, List.length_singleton]
    have : r.length + 1 - cap = 0 := by omega
    simp [this]
  · have hlen : r.length = cap := le_antisymm hr (not_lt.mp h)
    simp only [if_neg h, List.length_append, List.length_singleton]
    have h1 : r.length + 1 - cap = 1 := by omega
    rw [h1, List.drop_append_of_le_length (by omega)]

/-- C3: one diff-router iteration behaves exactly as the spec describes.  If
the pair is untracked the message is appended to the pair's saved ring
(capacity 1000, oldest dropped when full) and counted as queued; if tracked
and the book's `snapshot_uid` exceeds the message's `update_id` the message is
dropped and counted as rejected; otherwise it is appended to the pair's
tracking queue and counted as accepted. -/
theorem C3_diff_router_cases (s : TrackerState) (m : OBMsg)
    (hlen : ((s.savedQueues.lookup m.pair).getD []).length ≤ 1000) :
    (s.trackingQueues.lookup m.pair = none →
      diffRouterStep s m = some { s with
        queuedCount := s.queuedCount + 1,
        savedQueues := setA m.pair
          (if ((s.savedQueues.lookup m.pair).getD []).length < 1000
            then ((s.savedQueues.lookup m.pair).getD []) ++ [m]
            else ((s.savedQueues.lookup m.pair).getD []).drop 1 ++ [m])
          s.savedQueues }) ∧
    (∀ q uid, s.trackingQueues.lookup m.pair = some q →
      s.orderBooks.lookup m.pair = some uid →
      (m.updateId < uid →
        diffRouterStep s m = some { s with rejectedCount := s.rejectedCount + 1 }) ∧
      (uid ≤ m.updateId →
        diffRouterStep s m = some { s with
          acceptedCount := s.acceptedCount + 1,
          trackingQueues := setA m.pair (q ++ [m]) s.trackingQueues })) := by
  constructor
  · intro hq
    simp only [diffRouterStep, hq]
    rw [← pushRing_eq 1000 (by omega) _ m hlen]
  · intro q uid hq hb
    constructor
    · intro hlt
      simp only [diffRouterStep, hq, hb, if_pos hlt]
    · intro hge
      simp only [diffRouterStep, hq, hb, if_neg (not_lt.mpr hge)]

theorem C3_diff_router_cases_witness :
    ((c3State.savedQueues.lookup c3MsgB.pair).getD []).length ≤ 1000 ∧
    diffRouterStep c3State c3MsgB = some { c3State with
      queuedCount := c3State.queuedCount + 1,
      savedQueues := setA c3MsgB.pair
        (if ((c3State.savedQueues.lookup c3MsgB.pair).getD []).length < 1000
          then ((c3State.savedQueues.lookup c3MsgB.pair).getD []) ++ [c3MsgB]
          else ((c3State.savedQueues.lookup c3MsgB.pair).getD []).drop 1 ++ [c3MsgB])
        c3State.savedQueues } :=
  ⟨by decide, (C3_diff_router_cases c3State c3MsgB (by decide)).1 rfl⟩

theorem scanl_init_ready (uidOf : String → ℕ) (pairs : List String) :
    ∀ s0 : TrackerState,
      (pairs.scanl (fun s p => initPairStep s p (uidOf p)) s0).map trackerReady
        = List.replicate (pairs.length + 1) s0.initialized := by
  induction pairs with
  | nil => intro s0; simp [trackerReady]
  | cons p rest ih =>
    intro s0
    rw [List.scanl_cons, List.map_append, ih (initPairStep s0 p (uidOf p))]
    simp [trackerReady, initPairStep, List.replicate_succ]

theorem countFlips_false_run (n : ℕ) :
    countFlips (List.replicate (n + 1) false ++ [true]) = 1 := by
  induction n with
  | zero => rfl
  | succ n ih =>
    have h : List.replicate (n + 1 + 1) false ++ [true]
        = false :: false :: (List.replicate n false ++ [true]) := by
      simp [List.replicate_succ]
    rw [h]
    simp only [countFlips, Bool.not_false, Bool.true_and, if_neg, Bool.false_eq_true,
      not_false_eq_true, Nat.zero_add]
    have h2 : false :: (List.replicate n false ++ [true])
        = List.replicate (n + 1) false ++ [true] := by
      simp [List.replicate_succ]
    rw [h2]
    exact ih

theorem init_fold_preserves (uidOf : String → ℕ) (pairs : List String) :
    ∀ (s0 : TrackerState) (p : String),
      (s0.orderBooks.lookup p).isSome ∧ (s0.trackingQueues.lookup p).isSome ∧
        p ∈ s0.trackingTasks →
      ((pairs.foldl (fun s q => initPairStep s q (uidOf q)) s0).orderBooks.lookup p).isSome ∧
      ((pairs.foldl (fun s q => initPairStep s q (uidOf q)) s0).trackingQueues.lookup p).isSome ∧
      p ∈ (pairs.foldl (fun s q => initPairStep s q (uidOf q)) s0).trackingTasks := by
  induction pairs with
  | nil => intro s0 p h; exact h
  | cons q rest ih =>
    intro s0 p h
    rw [List.foldl_cons]
    refine ih _ p ?_
    obtain ⟨h1, h2, h3⟩ := h
    unfold initPairStep
    refine ⟨?_, ?_, ?_⟩
    · simp only
      rw [lookup_setA]
      by_cases hpq : p = q
      · simp [hpq]
      · simp only [if_neg hpq]
        exact h1
    · simp only
      rw [lookup_setA]
      by_cases hpq : p = q
      · simp [hpq]
      · simp only [if_neg hpq]
        exact h2
    · simp only
      exact List.mem_append_left _ h3

theorem init_fold_mem (uidOf : String → ℕ) (pairs : List String) :
    ∀ (s0 : TrackerState) (p : String), p ∈ pairs →
      ((pairs.foldl (fun s q => initPairStep s q (uidOf q)) s0).orderBooks.lookup p).isSome ∧
      ((pairs.foldl (fun s q => initPairStep s q (uidOf q)) s0).trackingQueues.lookup p).isSome ∧
      p ∈ (pairs.foldl (fun s q => initPairStep s q (uidOf q)) s0).trackingTasks := by
  induction pairs with
  | nil => intro s0 p h; cases h
  | cons q rest ih =>
    intro s0 p hp
    rw [List.foldl_cons]
    rcases List.mem_cons.mp hp with rfl | hmem
    · refine init_fold_preserves uidOf rest _ p ?_
      unfold initPairStep
      refine ⟨?_, ?_, ?_⟩
      · simp only
        rw [lookup_setA]
        simp
      · simp only
        rw [lookup_setA]
        simp
      · simp
    · exact ih _ p hmem

/-- C7: within one `start()`/`stop()` cycle, `ready` is false at every point
of `_init_order_books` before the final `set()` (every state but the last in
`initStates`), becomes true exactly at the final state — by which point every
pair of the initial list has its book stored, its tracking queue created and
its worker task registered — flips from false to true exactly once over the
whole history, and `stop()` resets it to false. -/
theorem C7_ready_exactly_once (uidOf : String → ℕ) (pairs : List String)
    (s0 : TrackerState) (h0 : s0.initialized = false) :
    (∀ st ∈ (initStates uidOf s0 pairs).dropLast, trackerReady st = false) ∧
    trackerReady
      (setInitializedStep (pairs.foldl (fun s q => initPairStep s q (uidOf q)) s0)) = true ∧
    (∀ p ∈ pairs,
      ((pairs.foldl (fun s q => initPairStep s q (uidOf q)) s0).orderBooks.lookup p).isSome ∧
      ((pairs.foldl (fun s q => initPairStep s q (uidOf q)) s0).trackingQueues.lookup p).isSome ∧
      p ∈ (pairs.foldl (fun s q => initPairStep s q (uidOf q)) s0).trackingTasks) ∧
    countFlips ((initStates uidOf s0 pairs).map trackerReady) = 1 ∧
    (∀ s : TrackerState, trackerReady (stopStep s) = false) := by
  refine ⟨?_, rfl, fun p hp => init_fold_mem uidOf pairs s0 p hp, ?_, fun s => rfl⟩
  · intro st hst
    have hdrop : (initStates uidOf s0 pairs).dropLast
        = pairs.scanl (fun s p => initPairStep s p (uidOf p)) s0 := by
      unfold initStates
      rw [List.dropLast_concat]
    rw [hdrop] at hst
    have hmem : trackerReady st ∈
        (pairs.scanl (fun s p => initPairStep s p (uidOf p)) s0).map trackerReady :=
      List.mem_map_of_mem trackerReady hst
    rw [scanl_init_ready, h0] at hmem
    exact List.eq_of_mem_replicate hmem
  · unfold initStates
    rw [List.map_append, scanl_init_ready, h0]
    exact countFlips_false_run pairs.length

theorem C7_ready_exactly_once_witness :
    initialTrackerState.initialized = false ∧
    countFlips ((initStates (fun _ => 7) initialTrackerState ["A", "B"]).map trackerReady) = 1 :=
  ⟨rfl,
    (C7_ready_exactly_once (fun _ => 7) ["A", "B"] initialTrackerState rfl).2.2.2.1⟩

/-- The tracker-level effect of a worker processing one message keeps the
queue-keys-are-book-keys invariant. -/
theorem workerApply_inv (s : TrackerState) (m : OBMsg)
    (h : trackerInv s) : trackerInv (workerApply s m) := by
  unfold workerApply
  match m.mtype with
  | .snapshot =>
    simp only
    cases hb : s.orderBooks.lookup m.pair with
    | none => exact h
    | some uid =>
      intro k hk
      rw [lookup_setA]
      by_cases hkp : k = m.pair
      · simp [hkp]
      · simp only [if_neg hkp]
        exact h k hk
  | .diff => exact h
  | .trade => exact h

/-- Every tracker operation preserves the invariant that every key of
`_tracking_message_queues` is a key of `_order_books`. -/
theorem trackerStep_inv {s t : TrackerState} (hstep : TrackerStep s t)
    (hinv : trackerInv s) : trackerInv t := by
  cases hstep with
  | initPair p uid =>
    intro k hk
    unfold initPairStep at hk ⊢
    simp only at hk ⊢
    rw [lookup_setA] at hk ⊢
    by_cases hkp : k = p
    · simp [hkp]
    · simp only [if_neg hkp] at hk ⊢
      exact hinv k hk
  | setInit => exact fun k hk => hinv k hk
  | stop => exact fun k hk => hinv k hk
  | routeDiff m s2 h =>
    cases hq : s.trackingQueues.lookup m.pair with
    | none =>
      simp only [diffRouterStep, hq, Option.some.injEq] at h
      subst h
      exact fun k hk => hinv k hk
    | some q =>
      cases hb : s.orderBooks.lookup m.pair with
      | none =>
        simp only [diffRouterStep, hq, hb] at h
        exact Option.noConfusion h
      | some uid =>
        by_cases hlt : m.updateId < uid
        · simp only [diffRouterStep, hq, hb, if_pos hlt, Option.some.injEq] at h
          subst h
          exact fun k hk => hinv k hk
        · simp only [diffRouterStep, hq, hb, if_neg hlt, Option.some.injEq] at h
          subst h
          intro k hk
          simp only at hk
          rw [lookup_setA] at hk
          by_cases hkp : k = m.pair
          · subst hkp
            exact hinv m.pair (by simp [hq])
          · simp only [if_neg hkp] at hk
            exact hinv k hk
  | routeSnapshot m =>
    unfold snapshotRouterStep
    cases hq : s.trackingQueues.lookup m.pair with
    | none => exact fun k hk => hinv k hk
    | some q =>
      intro k hk
      simp only at hk
      rw [lookup_setA] at hk
      by_cases hkp : k = m.pair
      · subst hkp
        exact hinv m.pair (by simp [hq])
      · simp only [if_neg hkp] at hk
        exact hinv k hk
  | workerPop p =>
    unfold workerPopStep
    cases hs : (s.savedQueues.lookup p).getD [] with
    | cons msg rest =>
      simp only
      exact workerApply_inv _ msg (fun k hk => hinv k hk)
    | nil =>
      simp only
      cases ht : (s.trackingQueues.lookup p).getD [] with
      | nil => exact hinv
      | cons msg rest =>
        refine workerApply_inv _ msg ?_
        intro k hk
        simp only at hk
        rw [lookup_setA] at hk
        by_cases hkp : k = p
        · refine hinv k ?_
          rw [hkp]
          cases ht2 : s.trackingQueues.lookup p with
          | none => rw [ht2] at ht; simp at ht
          | some q => simp
        · simp only [if_neg hkp] at hk
          exact hinv k hk

theorem reach_inv {s : TrackerState} (h : TrackerReach s) : trackerInv s := by
  induction h with
  | refl => intro k hk; simp [initialTrackerState, List.lookup] at hk
  | tail hsteps hstep ih => exact trackerStep_inv hstep ih

/-- C10: in every state reachable by the tracker's own operations, every key
of `_tracking_message_queues` is also a key of `_order_books`, so the diff
router's `_order_books[trading_pair]` lookup after the membership test never
fails: `diffRouterStep` always returns a state. -/
theorem C10_diff_router_never_fails (s : TrackerState) (h : TrackerReach s)
    (m : OBMsg) : (diffRouterStep s m).isSome := by
  have hinv := reach_inv h
  unfold diffRouterStep
  cases hq : s.trackingQueues.lookup m.pair with
  | none => simp
  | some q =>
    have hb := hinv m.pair (by simp [hq])
    cases hbk : s.orderBooks.lookup m.pair with
    | none => rw [hbk] at hb; simp at hb
    | some uid =>
      simp only
      split <;> simp

theorem C10_diff_router_never_fails_witness :
    (diffRouterStep (initPairStep initialTrackerState "A" 50)
      (OBMsg.mk "A" .diff 7)).isSome :=
  C10_diff_router_never_fails _
    (Relation.ReflTransGen.single (TrackerStep.initPair initialTrackerState "A" 50))
    (OBMsg.mk "A" .diff 7)

/-- C6: in every iteration `_track_single_book` processes the oldest saved
message when `saved_message_queues[pair]` is non-empty and takes from the
tracking queue only when the saved queue is empty, so a run of `n` iterations
processes the saved messages first, in order, before any newly routed
message: the processed sequence is exactly `(saved ++ inbox).take n`. -/
theorem C6_saved_messages_processed_first (n : ℕ) (saved inbox : List OBMsg) :
    workerSched OBMsg n saved inbox = (saved ++ inbox).take n := by
  induction n generalizing saved inbox with
  | zero => simp [workerSched]
  | succ n ih =>
    match saved with
    | m :: rest => simp [workerSched, ih]
    | [] =>
      match inbox with
      | m :: rest => simp [workerSched, ih]
      | [] => simp [workerSched]

theorem mem_of_lookup_eq_some {α : Type} {bs : List (String × α)} {p : String} {b : α}
    (h : bs.lookup p = some b) : (p, b) ∈ bs := by
  induction bs with
  | nil => cases h
  | cons hd tl ih =>
    obtain ⟨k, v⟩ := hd
    by_cases hk : p = k
    · subst hk
      simp only [List.lookup, beq_self_eq_true] at h
      cases h
      exact List.mem_cons_self _ _
    · simp only [List.lookup, beq_false_of_ne hk] at h
      exact List.mem_cons_of_mem _ (ih h)

theorem lookup_eq_some_of_mem {α : Type} {bs : List (String × α)}
    (hnd : (bs.map Prod.fst).Nodup) {p : String} {b : α} (hmem : (p, b) ∈ bs) :
    bs.lookup p = some b := by
  induction bs with
  | nil => cases hmem
  | cons hd tl ih =>
    rw [List.map_cons, List.nodup_cons] at hnd
    rcases List.mem_cons.mp hmem with heq | hmem2
    · rw [← heq]
      simp [List.lookup]
    · have hne : p ≠ hd.1 := by
        intro he
        have hin : p ∈ tl.map Prod.fst := List.mem_map.mpr ⟨(p, b), hmem2, rfl⟩
        rw [he] at hin
        exact hnd.1 hin
      obtain ⟨k, v⟩ := hd
      simp only [List.lookup, beq_false_of_ne hne]
      exact ih hnd.2 hmem2

theorem assignPrice_lookup_other (now : ℚ) (bs : List (String × TradeBook))
    (p q : String) (price : ℚ) (h : q ≠ p) :
    (assignPrice now bs p price).lookup q = bs.lookup q := by
  unfold assignPrice
  cases hb : bs.lookup p with
  | none => rfl
  | some b =>
    simp only
    rw [lookup_setA, if_neg h]

theorem fold_assign_not_mem (now : ℚ) (res : List (String × ℚ)) :
    ∀ (bs : List (String × TradeBook)) (p : String), p ∉ res.map Prod.fst →
      (res.foldl (fun bs2 pr => assignPrice now bs2 pr.1 pr.2) bs).lookup p
        = bs.lookup p := by
  induction res with
  | nil => intro bs p _; rfl
  | cons hd tl ih =>
    intro bs p h
    rw [List.foldl_cons]
    have hq : p ≠ hd.1 := fun he => h (by simp [he])
    rw [ih _ p (fun hmem => h (by simp [hmem]))]
    exact assignPrice_lookup_other now bs hd.1 p hd.2 hq

theorem fold_assign_mem (now : ℚ) (res : List (String × ℚ)) :
    ∀ (bs : List (String × TradeBook)) (p : String) (price : ℚ) (b : TradeBook),
      (res.map Prod.fst).Nodup → (p, price) ∈ res → bs.lookup p = some b →
      (res.foldl (fun bs2 pr => assignPrice now bs2 pr.1 pr.2) bs).lookup p
        = some { b with lastTradePrice := price, lastTradePriceRestUpdated := now } := by
  induction res with
  | nil => intro bs p price b _ hmem _; cases hmem
  | cons hd tl ih =>
    intro bs p price b hnd hmem hb
    rw [List.map_cons, List.nodup_cons] at hnd
    rw [List.foldl_cons]
    rcases List.mem_cons.mp hmem with heq | hmem2
    · have hd1 : hd.1 = p := by rw [← heq]
      have hnot : p ∉ tl.map Prod.fst := by rw [← hd1]; exact hnd.1
      rw [fold_assign_not_mem now tl _ p hnot]
      unfold assignPrice
      rw [← heq]
      simp only [hb]
      rw [lookup_setA, if_pos rfl]
    · have hne : p ≠ hd.1 := by
        intro he
        have hin : p ∈ tl.map Prod.fst := List.mem_map.mpr ⟨(p, price), hmem2, rfl⟩
        rw [he] at hin
        exact hnd.1 hin
      refine Eq.trans (ih _ p price b hnd.2 hmem2 ?_) rfl
      rw [assignPrice_lookup_other now bs hd.1 p hd.2 hne]
      exact hb

/-- C8: each iteration of `_update_last_trade_prices_loop` computes exactly
the set of pairs whose book satisfies `last_applied_trade < now - 180` and
`last_trade_price_rest_updated < now - 5`; when the set is empty the books
are untouched and the loop sleeps one second; when it is non-empty
`get_last_traded_prices` is called on exactly that set with no sleep, every
returned price is stored in the pair's book, and the pair's
`last_trade_price_rest_updated` is stamped with the current monotonic time.
The clock advances by at most one second per iteration, so a pair meeting the
condition is passed to the REST call within at most one second. -/
theorem C8_rest_fallback (oracle : List String → List (String × ℚ))
    (s : PriceLoopState) (hnd : (s.books.map Prod.fst).Nodup)
    (hresnd : ((oracle (outdatedPairs s)).map Prod.fst).Nodup) :
    (∀ p, p ∈ outdatedPairs s ↔ ∃ b, s.books.lookup p = some b ∧
      b.lastAppliedTrade < s.clock - 60 * 3 ∧
      b.lastTradePriceRestUpdated < s.clock - 5) ∧
    (outdatedPairs s = [] →
      priceLoopStep oracle s = ({ s with clock := s.clock + 1 }, none)) ∧
    (outdatedPairs s ≠ [] →
      (priceLoopStep oracle s).2 = some (outdatedPairs s) ∧
      (priceLoopStep oracle s).1.clock = s.clock ∧
      ∀ p price b, (p, price) ∈ oracle (outdatedPairs s) →
        s.books.lookup p = some b →
        (priceLoopStep oracle s).1.books.lookup p
          = some { b with lastTradePrice := price,
                          lastTradePriceRestUpdated := s.clock }) ∧
    (priceLoopStep oracle s).1.clock ≤ s.clock + 1 := by
  have hisempty : ∀ (h : (outdatedPairs s) ≠ []), (outdatedPairs s).isEmpty = false := by
    intro h
    cases hod : outdatedPairs s with
    | nil => exact absurd hod h
    | cons a l => rfl
  refine ⟨?_, ?_, ?_, ?_⟩
  · intro p
    constructor
    · intro hp
      unfold outdatedPairs at hp
      obtain ⟨pb, hpb, hfst⟩ := List.mem_map.mp hp
      obtain ⟨hmem, hcond⟩ := List.mem_filter.mp hpb
      rw [Bool.and_eq_true, decide_eq_true_eq, decide_eq_true_eq] at hcond
      obtain ⟨k, v⟩ := pb
      simp only at hfst
      subst hfst
      exact ⟨v, lookup_eq_some_of_mem hnd hmem, hcond.1, hcond.2⟩
    · rintro ⟨b, hb, h1, h2⟩
      unfold outdatedPairs
      refine List.mem_map.mpr ⟨(p, b), List.mem_filter.mpr ⟨mem_of_lookup_eq_some hb, ?_⟩, rfl⟩
      simp only [Bool.and_eq_true, decide_eq_true_eq]
      exact ⟨h1, h2⟩
  · intro hemp
    unfold priceLoopStep
    simp [hemp]
  · intro hne
    refine ⟨?_, ?_, ?_⟩
    · unfold priceLoopStep
      simp [hisempty hne]
    · unfold priceLoopStep
      simp [hisempty hne]
    · intro p price b hpr hb
      unfold priceLoopStep
      simp only [hisempty hne, Bool.false_eq_true, if_false]
      exact fold_assign_mem s.clock (oracle (outdatedPairs s)) s.books p price b hresnd hpr hb
  · unfold priceLoopStep
    by_cases h : (outdatedPairs s).isEmpty
    · simp [h]
    · simp [h]

theorem C8_rest_fallback_witness :
    (c8State.books.map Prod.fst).Nodup ∧
    ((c8Oracle (outdatedPairs c8State)).map Prod.fst).Nodup ∧
    outdatedPairs c8State ≠ [] ∧
    (priceLoopStep c8Oracle c8State).1.books.lookup "A"
      = some { lastAppliedTrade := 800, lastTradePriceRestUpdated := 1000,
               lastTradePrice := 42 } :=
  ⟨by simp [c8State], by simp [c8Oracle],
    by norm_num [outdatedPairs, c8State, c8Book],
    ((C8_rest_fallback c8Oracle c8State (by simp [c8State]) (by simp [c8Oracle])).2.2.1
      (by norm_num [outdatedPairs, c8State, c8Book])).2.2 "A" 42 c8Book
      (by simp [c8Oracle]) rfl⟩

theorem foldl_setA_lookup_other {α β : Type} (key : β → String) (val : β → α)
    (data : List β) :
    ∀ (init : List (String × α)) (p : String), p ∉ data.map key →
      ((data.foldl (fun acc r => setA (key r) (val r) acc) init).lookup p)
        = init.lookup p := by
  induction data with
  | nil => intro init p _; rfl
  | cons hd tl ih =>
    intro init p h
    rw [List.foldl_cons, ih _ p (fun hmem => h (by simp [hmem]))]
    rw [lookup_setA, if_neg (fun he => h (by simp [he]))]

theorem foldl_setA_lookup {α β : Type} (key : β → String) (val : β → α)
    (data : List β) :
    ∀ (init : List (String × α)), (data.map key).Nodup → ∀ row ∈ data,
      ((data.foldl (fun acc r => setA (key r) (val r) acc) init).lookup (key row))
        = some (val row) := by
  induction data with
  | nil => intro _ _ row h; cases h
  | cons hd tl ih =>
    intro init hnd row hrow
    rw [List.map_cons, List.nodup_cons] at hnd
    rw [List.foldl_cons]
    rcases List.mem_cons.mp hrow with rfl | hmem
    · rw [foldl_setA_lookup_other key val tl _ (key row) hnd.1]
      rw [lookup_setA, if_pos rfl]
    · exact ih _ hnd.2 row hmem

theorem binanceParse_eq (stdHours : ℚ) (intervalHours : List (String × ℕ))
    (data : List BinanceFrRow) :
    binanceParseRestFundingrates stdHours intervalHours data
      = data.foldl
          (fun fr row => setA row.symbol (binanceVal stdHours intervalHours row) fr)
          [] := by
  unfold binanceParseRestFundingrates
  congr 1
  funext fr row
  cases h : intervalHours.lookup row.symbol <;> simp [binanceVal, h]

theorem updateAll_lookup_other (exOf : String → Option String) (pairs : List String) :
    ∀ (rates updates : List (String × ℚ)) (p : String), p ∉ pairs →
      (updateAllFundingInfo exOf pairs rates updates).lookup p = rates.lookup p := by
  induction pairs with
  | nil => intro rates _ p _; rfl
  | cons q rest ih =>
    intro rates updates p h
    have hpq : p ≠ q := fun he => h (by simp [he])
    have hrest : p ∉ rest := fun hmem => h (by simp [hmem])
    unfold updateAllFundingInfo
    rw [List.foldl_cons]
    cases hex : exOf q with
    | none =>
      simp only [hex]
      exact ih rates updates p hrest
    | some ex =>
      simp only [hex]
      cases hupd : updates.lookup ex with
      | none => exact ih rates updates p hrest
      | some v =>
        simp only
        rw [show (rest.foldl _ (setA q v rates)) =
          updateAllFundingInfo exOf rest (setA q v rates) updates from rfl]
        rw [ih (setA q v rates) updates p hrest, lookup_setA, if_neg hpq]

theorem updateAll_lookup (exOf : String → Option String) (pairs : List String) :
    ∀ (rates updates : List (String × ℚ)) (tp ex : String) (v : ℚ),
      pairs.Nodup → tp ∈ pairs → exOf tp = some ex → updates.lookup ex = some v →
      (updateAllFundingInfo exOf pairs rates updates).lookup tp = some v := by
  induction pairs with
  | nil => intro _ _ _ _ _ _ h; cases h
  | cons q rest ih =>
    intro rates updates tp ex v hnd hmem hex hupd
    rw [List.nodup_cons] at hnd
    unfold updateAllFundingInfo
    rw [List.foldl_cons]
    rcases List.mem_cons.mp hmem with rfl | hmem2
    · simp only [hex, hupd]
      rw [show (rest.foldl _ (setA tp v rates)) =
        updateAllFundingInfo exOf rest (setA tp v rates) updates from rfl]
      rw [updateAll_lookup_other exOf rest _ updates tp hnd.1, lookup_setA, if_pos rfl]
    · cases hex2 : exOf q with
      | none => exact ih rates updates tp ex v hnd.2 hmem2 hex hupd
      | some ex2 =>
        simp only
        cases hupd2 : updates.lookup ex2 with
        | none => exact ih rates updates tp ex v hnd.2 hmem2 hex hupd
        | some v2 => exact ih (setA q v2 rates) updates tp ex v hnd.2 hmem2 hex hupd

/-- C5 (counterexample): the claim — every symbol the REST parsers emit is
stored as the raw rate times `std_hours / funding_interval_hours` taken from
the most recent source frame — fails for Binance: when a symbol is absent
from `_funding_interval_hours` (e.g. the funding-info fetch failed or has not
run, leaving the table empty), the `else` branch at lines 135-136 stores the
raw rate with no interval at all. -/
theorem C5_counterexample :
    ¬ (∀ (intervalHours : List (String × ℕ)) (data : List BinanceFrRow)
        (p : String) (r : ℚ),
        (binanceParseRestFundingrates 24 intervalHours data).lookup p = some r →
        ∃ ih : ℕ, intervalHours.lookup p = some ih ∧
          ∃ row ∈ data, row.symbol = p ∧ r = row.lastFundingRate * (24 / ih)) := by
  intro h
  obtain ⟨ih, hih, _⟩ :=
    h [] [⟨"BTCUSDT", 1 / 10000⟩] "BTCUSDT" (1 / 10000) rfl
  exact Option.noConfusion hih

/-- C5 (amended): for every Binance row whose symbol has a funding interval
on record, the parsed rate is `raw · (std_hours / interval_hours)`, and a row
whose symbol has no interval on record is stored raw; every OKX row is stored
as `raw · (std_hours·3600 / (nextFundingTime − fundingTime in seconds))`; and
`_update_all_funding_info` stores, under each configured pair whose exchange
symbol the parser emitted, exactly the parsed value. -/
theorem C5_funding_rate_normalization (stdHours : ℚ)
    (intervalHours : List (String × ℕ)) (bdata : List BinanceFrRow)
    (hbnd : (bdata.map BinanceFrRow.symbol).Nodup)
    (odata : List OkxFrRow) (hond : (odata.map OkxFrRow.instId).Nodup)
    (exOf : String → Option String) (tradingPairs : List String)
    (hpnd : tradingPairs.Nodup) (rates updates : List (String × ℚ)) :
    (∀ row ∈ bdata,
      (∀ ih, intervalHours.lookup row.symbol = some ih →
        (binanceParseRestFundingrates stdHours intervalHours bdata).lookup row.symbol
          = some (row.lastFundingRate * (stdHours / ih))) ∧
      (intervalHours.lookup row.symbol = none →
        (binanceParseRestFundingrates stdHours intervalHours bdata).lookup row.symbol
          = some row.lastFundingRate)) ∧
    (∀ row ∈ odata,
      (okxParseRestFundingrates stdHours odata).lookup row.instId
        = some (okxVal stdHours row)) ∧
    (∀ tp ∈ tradingPairs, ∀ ex v, exOf tp = some ex → updates.lookup ex = some v →
      (updateAllFundingInfo exOf tradingPairs rates updates).lookup tp = some v) := by
  refine ⟨?_, ?_, ?_⟩
  · intro row hrow
    have hbase := foldl_setA_lookup BinanceFrRow.symbol
      (binanceVal stdHours intervalHours) bdata [] hbnd row hrow
    rw [← binanceParse_eq] at hbase
    constructor
    · intro ih hih
      rw [hbase]
      unfold binanceVal
      rw [hih]
    · intro hih
      rw [hbase]
      unfold binanceVal
      rw [hih]
  · intro row hrow
    exact foldl_setA_lookup OkxFrRow.instId (okxVal stdHours) odata [] hond row hrow
  · intro tp htp ex v hex hupd
    exact updateAll_lookup exOf tradingPairs rates updates tp ex v hpnd htp hex hupd

theorem C5_funding_rate_normalization_witness :
    (binanceParseRestFundingrates 24 [("BTCUSDT", 8)]
      [⟨"BTCUSDT", 1 / 10000⟩]).lookup "BTCUSDT"
        = some ((1 / 10000 : ℚ) * (24 / ((8 : ℕ) : ℚ))) ∧
    (okxParseRestFundingrates 24
      [⟨"BTC-USDT-SWAP", 1 / 10000, 1700000000000, 1700028800000⟩]).lookup
        "BTC-USDT-SWAP"
        = some (okxVal 24 ⟨"BTC-USDT-SWAP", 1 / 10000, 1700000000000, 1700028800000⟩) :=
  ⟨((C5_funding_rate_normalization 24 [("BTCUSDT", 8)] [⟨"BTCUSDT", 1 / 10000⟩]
      (by simp) [] (by simp) (fun _ => none) [] (by simp) [] []).1
      ⟨"BTCUSDT", 1 / 10000⟩ (by simp)).1 8 rfl,
    (C5_funding_rate_normalization 24 [] []
      (by simp) [⟨"BTC-USDT-SWAP", 1 / 10000, 1700000000000, 1700028800000⟩]
      (by simp) (fun _ => none) [] (by simp) [] []).2.1
      ⟨"BTC-USDT-SWAP", 1 / 10000, 1700000000000, 1700028800000⟩ (by simp)⟩

/-- C9: however the inner try block of `listen_for_subscriptions` is left —
websocket `ConnectionError`, any other exception, or task cancellation —
`_on_interruption` runs: the websocket (when one was created) is
disconnected, the whole `_funding_rates` cache is cleared, so
`funding_rates` is empty and `ready` is false (there being at least one
configured pair); only cancellation leaves the loop.  `ready` becomes true
again exactly when a rate is on record for every configured trading pair. -/
theorem C9_interruption_clears_cache (reason : WsExit) (wsPresent : Bool)
    (s : FeedState) (hpairs : s.tradingPairs ≠ []) :
    (listenIterationEnd reason wsPresent s).1.fundingRates = [] ∧
    feedReady (listenIterationEnd reason wsPresent s).1 = false ∧
    (wsPresent = true → (listenIterationEnd reason wsPresent s).1.wsConnected = false) ∧
    ((listenIterationEnd reason wsPresent s).2 = LoopOutcome.propagateCancel ↔
      reason = WsExit.cancelled) ∧
    (∀ rates2 : List (String × ℚ), (rates2.map Prod.fst).Nodup →
      (∀ k ∈ rates2.map Prod.fst, k ∈ s.tradingPairs) → s.tradingPairs.Nodup →
      (feedReady { s with fundingRates := rates2 } = true ↔
        ∀ p ∈ s.tradingPairs, ∃ v, rates2.lookup p = some v)) := by
  refine ⟨rfl, ?_, ?_, ?_, ?_⟩
  · simp only [listenIterationEnd, onInterruption, feedReady]
    simp [List.length_eq_zero, hpairs, Nat.le_zero]
  · intro hws
    simp [listenIterationEnd, onInterruption, hws]
  · cases reason <;> simp [listenIterationEnd]
  · intro rates2 hnd hsub hpnd
    simp only [feedReady, decide_eq_true_eq]
    constructor
    · intro hlen p hp
      have hcard : rates2.length = (rates2.map Prod.fst).length := by
        simp
      have hsub2 : (rates2.map Prod.fst).toFinset ⊆ s.tradingPairs.toFinset := by
        intro x hx
        rw [List.mem_toFinset] at hx ⊢
        exact hsub x hx
      have hle : s.tradingPairs.toFinset.card ≤ (rates2.map Prod.fst).toFinset.card := by
        rw [List.toFinset_card_of_nodup hnd, List.toFinset_card_of_nodup hpnd]
        omega
      have heq := Finset.eq_of_subset_of_card_le hsub2 hle
      have hpk : p ∈ rates2.map Prod.fst := by
        rw [← List.mem_toFinset, heq, List.mem_toFinset]
        exact hp
      obtain ⟨pr, hpr, hfst⟩ := List.mem_map.mp hpk
      obtain ⟨k, v⟩ := pr
      simp only at hfst
      subst hfst
      exact ⟨v, lookup_eq_some_of_mem hnd hpr⟩
    · intro hall
      have hsub3 : s.tradingPairs.toFinset ⊆ (rates2.map Prod.fst).toFinset := by
        intro x hx
        rw [List.mem_toFinset] at hx ⊢
        obtain ⟨v, hv⟩ := hall x hx
        exact List.mem_map.mpr ⟨(x, v), mem_of_lookup_eq_some hv, rfl⟩
      have hle := Finset.card_le_card hsub3
      rw [List.toFinset_card_of_nodup hnd, List.toFinset_card_of_nodup hpnd] at hle
      simpa using hle

theorem C9_interruption_clears_cache_witness :
    c9State.tradingPairs ≠ [] ∧
    (listenIterationEnd WsExit.otherError true c9State).1.fundingRates = [] ∧
    feedReady (listenIterationEnd WsExit.otherError true c9State).1 = false :=
  ⟨by simp [c9State],
    (C9_interruption_clears_cache WsExit.otherError true c9State (by simp [c9State])).1,
    (C9_interruption_clears_cache WsExit.otherError true c9State (by simp [c9State])).2.1⟩

end HBExt
